import Mathlib

/-!
Verification development for the Cal_Hacks focus-tracking repository.

The development shallowly embeds the parts of the code the claims are
about:

* `frontend/lib/analytics.ts` and `frontend/lib/distraction-service.ts`
  (distraction statistics and focus scores) — embedded directly from the
  TypeScript source.  JavaScript numbers are modelled as rationals,
  `new Date(s).getTime()` values as integer epoch milliseconds, and
  `new Date(s).getHours()` as an uninterpreted parameter
  `hourOf : Int → Nat` (local-time dependent).
* `frontend/contexts/SessionContext.tsx` (session lifecycle) — embedded
  as explicit state passing over the React state, localStorage and the
  Firestore session document.
* `frontend/lib/distraction-service.ts` Firestore queries — the remote
  store is a list of records; `where`/`orderBy` become filter/sort.
* The Distraction Coordinator (the Python `distraction_tracker.py`
  backend) is not part of the available sources; the coordinator state
  machine is modelled from the specification, section 4.4.
-/

namespace LaserLock

/-- Event type discriminator, the `type` field of `DistractionEvent`
(`lib/types/distraction.ts`). -/
inductive EvType where
  | gaze_distraction
  | window_distraction
  deriving DecidableEq

/-- Lifecycle status, the `status` field of `DistractionEvent`. -/
inductive EvStatus where
  | active
  | resolved
  deriving DecidableEq

/-- Embedding of the TypeScript `DistractionEvent` interface
(`lib/types/distraction.ts`), restricted to the fields the analytics
functions read.  `start_time`/`end_time` ISO strings are represented by
the epoch milliseconds they denote (`new Date(s).getTime()`); a null
`end_time` is `none`.  `process_name` stands for
`window_data?.process_name` and `sessionId` for the optional Firebase
field. -/
structure DistractionEvent where
  id : String
  type : EvType
  status : EvStatus
  reason : String
  start_time : Int
  end_time : Option Int
  process_name : Option String
  sessionId : Option String
  deriving DecidableEq

/-- One entry of `topDistractingApps` in `DistractionStats`. -/
structure AppCount where
  process_name : String
  count : Nat
  deriving DecidableEq

/-- One entry of `distractionsByHour` in `DistractionStats`. -/
structure HourCount where
  hour : Nat
  count : Nat
  deriving DecidableEq

/-- Embedding of the TypeScript `DistractionStats` interface. -/
structure DistractionStats where
  totalDistractions : Nat
  gazeDistractions : Nat
  windowDistractions : Nat
  totalDistractionTime : ℚ
  averageDistractionDuration : ℚ
  focusScore : ℚ
  topDistractingApps : List AppCount
  distractionsByHour : List HourCount
  deriving DecidableEq

/-- JavaScript `Math.round` (half-up, also for negative arguments) on the
rational model of JS numbers. -/
def jsRound (x : ℚ) : ℤ := ⌊x + 1/2⌋

/-- The duration accumulation loop shared by both statistics files:
`if (event.start_time && event.end_time) total += (end - start) / 1000`.
`start_time` is always a non-empty ISO string in the stored records, so
its truthiness test is the `end_time` non-null test. -/
def totalTime (events : List DistractionEvent) : ℚ :=
  events.foldl
    (fun acc e =>
      match e.end_time with
      | some t => acc + ((t : ℚ) - (e.start_time : ℚ)) / 1000
      | none => acc)
    0

/-- `event.window_data?.process_name || "Unknown"`. -/
def procName (e : DistractionEvent) : String :=
  e.process_name.getD "Unknown"

/-- Keys of the `appCounts` object in first-insertion order (JavaScript
object key order for non-numeric string keys). -/
def appKeys (events : List DistractionEvent) : List String :=
  events.foldl
    (fun ks e => if procName e ∈ ks then ks else ks ++ [procName e])
    []

/-- Value of `appCounts[app]` after the counting loop. -/
def appCount (events : List DistractionEvent) (app : String) : Nat :=
  (events.filter (fun e => decide (procName e = app))).length

/-- Stable insertion of an `AppCount` into a list sorted by descending
count: the element goes in front of the first strictly smaller count,
after earlier-inserted equal counts, matching the stable JavaScript
`sort((a, b) => b.count - a.count)`. -/
def insertByCount (a : AppCount) : List AppCount → List AppCount
  | [] => [a]
  | b :: bs => if b.count ≤ a.count then a :: b :: bs else b :: insertByCount a bs

/-- Stable sort by descending count (elements inserted left to right via
`insertByCount` from the right end, i.e. insertion sort). -/
def sortByCountDesc (l : List AppCount) : List AppCount :=
  l.foldr insertByCount []

/-- The `topDistractingApps` computation shared verbatim by both files:
count window events per process name, sort descending, take 5. -/
def topApps (windowDistractions : List DistractionEvent) : List AppCount :=
  sortByCountDesc
    ((appKeys windowDistractions).map
      (fun app => ⟨app, appCount windowDistractions app⟩))
  |>.take 5

/-- Value of `hourCounts[h] || 0` after the hour-counting loop over
`events`, for a given hour function (`new Date(t).getHours()`). -/
def hourCount (hourOf : Int → Nat) (events : List DistractionEvent) (h : Nat) : Nat :=
  (events.filter (fun e => decide (hourOf e.start_time = h))).length

/-- `Array.from({length: 24}, (_, hour) => ({hour, count: hourCounts[hour] || 0}))`,
shared verbatim by both files. -/
def byHour (hourOf : Int → Nat) (events : List DistractionEvent) : List HourCount :=
  (List.range 24).map (fun h => ⟨h, hourCount hourOf events h⟩)

namespace DistractionService

/-- Embedding of `calculateDistractionStats` from
`lib/distraction-service.ts` (lines 106–157): no status filter anywhere;
every event with both timestamps contributes time, every event counts. -/
def calculateDistractionStats (hourOf : Int → Nat)
    (events : List DistractionEvent) : DistractionStats :=
  let gazeDistractions :=
    events.filter (fun e => decide (e.type = EvType.gaze_distraction))
  let windowDistractions :=
    events.filter (fun e => decide (e.type = EvType.window_distraction))
  let totalDistractionTime := totalTime events
  { totalDistractions := events.length
    gazeDistractions := gazeDistractions.length
    windowDistractions := windowDistractions.length
    totalDistractionTime := totalDistractionTime
    averageDistractionDuration :=
      if 0 < events.length then totalDistractionTime / (events.length : ℚ) else 0
    focusScore := 0
    topDistractingApps := topApps windowDistractions
    distractionsByHour := byHour hourOf events }

/-- Embedding of `calculateFocusScore` from `lib/distraction-service.ts`
(lines 163–188). -/
def calculateFocusScore (sessionDuration : ℚ)
    (distractionEvents : List DistractionEvent) : ℚ :=
  if sessionDuration ≤ 0 then 100
  else
    let totalDistractionTime := min (totalTime distractionEvents) sessionDuration
    max 0 (min 100
      ((jsRound ((sessionDuration - totalDistractionTime) / sessionDuration * 100) : ℚ)))

end DistractionService

namespace Analytics

/-- Embedding of `calculateDistractionStats` from `lib/analytics.ts`
(lines 43–99): every aggregate is computed over events with
`status === "resolved"` only. -/
def calculateDistractionStats (hourOf : Int → Nat)
    (events : List DistractionEvent) : DistractionStats :=
  let gazeDistractions :=
    events.filter (fun e =>
      decide (e.type = EvType.gaze_distraction ∧ e.status = EvStatus.resolved))
  let windowDistractions :=
    events.filter (fun e =>
      decide (e.type = EvType.window_distraction ∧ e.status = EvStatus.resolved))
  let resolvedEvents :=
    events.filter (fun e => decide (e.status = EvStatus.resolved))
  let totalDistractionTime := totalTime resolvedEvents
  { totalDistractions := resolvedEvents.length
    gazeDistractions := gazeDistractions.length
    windowDistractions := windowDistractions.length
    totalDistractionTime := totalDistractionTime
    averageDistractionDuration :=
      if 0 < resolvedEvents.length then
        totalDistractionTime / (resolvedEvents.length : ℚ)
      else 0
    focusScore := 0
    topDistractingApps := topApps windowDistractions
    distractionsByHour := byHour hourOf resolvedEvents }

/-- Embedding of `calculateSessionFocusScore` from `lib/analytics.ts`
(lines 12–38): like the service version but only resolved events
contribute distraction time. -/
def calculateSessionFocusScore (sessionDurationSeconds : ℚ)
    (distractionEvents : List DistractionEvent) : ℚ :=
  if sessionDurationSeconds ≤ 0 then 100
  else
    let resolved :=
      distractionEvents.filter (fun e => decide (e.status = EvStatus.resolved))
    let totalDistractionTime := min (totalTime resolved) sessionDurationSeconds
    max 0 (min 100
      ((jsRound
        ((sessionDurationSeconds - totalDistractionTime) / sessionDurationSeconds * 100) : ℚ)))

end Analytics

namespace SessionContext

/-- Outcome of the `fetch` call to the tracking backend inside
`startSession`/`endSession` (`contexts/SessionContext.tsx`): the request
succeeded (`response.ok`), returned a non-OK status, or threw (network
failure). -/
inductive BackendCallResult where
  | ok
  | httpError
  | networkThrow
  deriving DecidableEq

/-- The React/localStorage state that `SessionProvider` owns:
`sessionId`, `isSessionActive`, and the three localStorage keys it
writes. -/
structure FrontendSessionState where
  sessionId : Option String
  isSessionActive : Bool
  lsActiveSessionId : Option String
  lsIsSessionActive : Bool
  lsLastCompletedSessionId : Option String
  deriving DecidableEq

/-- The Firestore document `users/{userId}/sessions/{sessionId}` as
written by `startSession` and merge-updated by `endSession`.  Timestamps
are epoch milliseconds. -/
structure SessionDoc where
  session_id : String
  start_time : Int
  status : String
  end_time : Option Int
  gaze_threshold_y : ℚ
  gaze_threshold_x_min : ℚ
  gaze_threshold_x_max : ℚ
  distraction_timeout : ℚ
  deriving DecidableEq

/-- The document `startSession` writes with `setDoc` (lines 54–63):
fixed thresholds and timeout, status "active", no end time. -/
def mkSessionDoc (newSessionId : String) (now : Int) : SessionDoc :=
  { session_id := newSessionId
    start_time := now
    status := "active"
    end_time := none
    gaze_threshold_y := 9/10
    gaze_threshold_x_min := 1/10
    gaze_threshold_x_max := 9/10
    distraction_timeout := 2 }

/-- Embedding of `startSession` (lines 42–91).  The React state and
localStorage are set, the session document is created, and then the
backend call is made; on `httpError` the code logs and alerts without
throwing, and on `networkThrow` the catch block logs and alerts — in all
three outcomes the frontend session state is left untouched. -/
def startSession (st : FrontendSessionState) (now : Int)
    (backend : BackendCallResult) : FrontendSessionState × SessionDoc :=
  let newSessionId := "session_" ++ toString now
  let st1 : FrontendSessionState :=
    { st with
      sessionId := some newSessionId
      isSessionActive := true
      lsActiveSessionId := some newSessionId
      lsIsSessionActive := true }
  let st2 :=
    match backend with
    | .ok => st1
    | .httpError => st1
    | .networkThrow => st1
  (st2, mkSessionDoc newSessionId now)

/-- The merge `setDoc` of `endSession` (lines 115–124): with
`merge: true` only `status` and `end_time` are touched. -/
def endSessionDocUpdate (d : SessionDoc) (now : Int) : SessionDoc :=
  { d with status := "completed", end_time := some now }

/-- Embedding of `endSession` (lines 93–135).  When a session id exists
the backend stop call is made (all outcomes only logged) and the session
document is merge-updated; localStorage and `isSessionActive` are then
updated unconditionally, and `sessionId` is kept. -/
def endSession (st : FrontendSessionState) (now : Int)
    (backend : BackendCallResult) (d : SessionDoc) :
    FrontendSessionState × SessionDoc :=
  let d2 :=
    match st.sessionId with
    | some _ =>
      match backend with
      | .ok => endSessionDocUpdate d now
      | .httpError => endSessionDocUpdate d now
      | .networkThrow => endSessionDocUpdate d now
    | none => d
  let st2 : FrontendSessionState :=
    { st with
      lsIsSessionActive := false
      lsLastCompletedSessionId := some (st.sessionId.getD "")
      isSessionActive := false }
  (st2, d2)

end SessionContext

/-- The relation `orderBy("start_time", "asc")` sorts by. -/
def startLE (a b : DistractionEvent) : Prop :=
  a.start_time ≤ b.start_time

instance : DecidableRel startLE := fun a b => by
  unfold startLE; infer_instance

instance : IsTotal DistractionEvent startLE :=
  ⟨fun a b => le_total a.start_time b.start_time⟩

instance : IsTrans DistractionEvent startLE :=
  ⟨fun _ _ _ h1 h2 => le_trans h1 h2⟩

/-- The `where("sessionId", "==", sessionId)` predicate. -/
def matchesSession (sid : String) (e : DistractionEvent) : Bool :=
  decide (e.sessionId = some sid)

/-- Embedding of `getSessionDistractions` from
`lib/distraction-service.ts` (lines 49–71): the Firestore store is a
list of records, `where` filters on `sessionId`, `orderBy` sorts
ascending by `start_time`; no condition on `status`.  The snapshot
callback of `subscribeToSessionDistractions` (lines 76–99) builds the
same list from the same query. -/
def getSessionDistractions (store : List DistractionEvent) (sid : String) :
    List DistractionEvent :=
  List.insertionSort startLE (store.filter (matchesSession sid))

/-- A fixed hour function for concrete evaluations (all timestamps in
hour 0). -/
def hourZero : Int → Nat := fun _ => 0

/-- A still-active gaze distraction record, as the backend publishes
while the user is away. -/
def activeProbe : DistractionEvent :=
  { id := "evt-1"
    type := EvType.gaze_distraction
    status := EvStatus.active
    reason := "looking down"
    start_time := 0
    end_time := none
    process_name := none
    sessionId := some "session_1" }

/-- A resolved gaze distraction record lasting 4 seconds. -/
def resolvedProbe : DistractionEvent :=
  { id := "evt-2"
    type := EvType.gaze_distraction
    status := EvStatus.resolved
    reason := "looking down"
    start_time := 1000
    end_time := some 5000
    process_name := none
    sessionId := some "session_1" }

namespace Coordinator

/-- Modelled from the spec: the two independent distraction channels
(section 3, `channel` enum) of the Distraction Coordinator in the Python
backend `distraction_tracker.py`, which is not among the available
sources. -/
inductive Channel where
  | gaze
  | window
  deriving DecidableEq

/-- Modelled from the spec: event lifecycle status (section 3). -/
inductive CStatus where
  | active
  | resolved
  deriving DecidableEq

/-- Modelled from the spec: a coordinator-owned `DistractionEvent`
(section 3), restricted to the fields the state machine of section 4.4
reads and writes.  Timestamps are rationals (seconds). -/
structure CEvent where
  id : Nat
  channel : Channel
  status : CStatus
  reason : String
  snapshot : String
  start_time : ℚ
  end_time : Option ℚ
  deriving DecidableEq

/-- Modelled from the spec: a sampler signal (section 4.2/4.3),
`Signal{channel, distracted, reason, snapshot, timestamp}`. -/
structure Signal where
  channel : Channel
  distracted : Bool
  reason : String
  snapshot : String
  timestamp : ℚ
  deriving DecidableEq

/-- Modelled from the spec: the Distraction Coordinator state
(section 4.4): the canonical event list, the per-channel debounce state
`pending_since`, and the next fresh id.  The `last…` fields are ghost
history variables recording the timestamp of the most recent signal
processed on each channel; the step function writes them but never reads
them, and they let the per-channel delivery-order guarantee of section 5
be stated as a hypothesis on transitions. -/
structure CoordState where
  events : List CEvent
  pendingGaze : Option ℚ
  pendingWindow : Option ℚ
  nextId : Nat
  lastGaze : Option ℚ
  lastWindow : Option ℚ
  deriving DecidableEq

/-- Per-channel read of `pending_since`. -/
def pendingOf (s : CoordState) : Channel → Option ℚ
  | .gaze => s.pendingGaze
  | .window => s.pendingWindow

/-- Per-channel write of `pending_since`. -/
def setPending (s : CoordState) : Channel → Option ℚ → CoordState
  | .gaze, v => { s with pendingGaze := v }
  | .window, v => { s with pendingWindow := v }

/-- Per-channel read of the ghost last-signal timestamp. -/
def lastOf (s : CoordState) : Channel → Option ℚ
  | .gaze => s.lastGaze
  | .window => s.lastWindow

/-- Per-channel write of the ghost last-signal timestamp. -/
def setLast (s : CoordState) : Channel → ℚ → CoordState
  | .gaze, v => { s with lastGaze := some v }
  | .window, v => { s with lastWindow := some v }

/-- Whether an event is the active event of channel `c`. -/
def isActiveOn (e : CEvent) (c : Channel) : Bool :=
  decide (e.channel = c ∧ e.status = CStatus.active)

/-- Whether the event list has an active event on channel `c`. -/
def hasActive (evs : List CEvent) (c : Channel) : Bool :=
  evs.any (fun e => isActiveOn e c)

/-- Modelled from the spec: "Active event exists, signal distracted →
refresh `reason`/`channel_snapshot` on the existing event (no new
event); do not reset `start_time`" (section 4.4). -/
def refreshChannel (evs : List CEvent) (c : Channel) (reason snapshot : String) :
    List CEvent :=
  evs.map (fun e =>
    if isActiveOn e c then { e with reason := reason, snapshot := snapshot } else e)

/-- Modelled from the spec: "Active event exists, signal not distracted
→ resolve event: `status=resolved`, `end_time = signal.timestamp`"
(section 4.4). -/
def resolveChannel (evs : List CEvent) (c : Channel) (ts : ℚ) : List CEvent :=
  evs.map (fun e =>
    if isActiveOn e c then
      { e with status := CStatus.resolved, end_time := some ts }
    else e)

/-- Modelled from the spec: the Distraction Coordinator transition on
one incoming signal (section 4.4, the six listed state transitions),
for a fixed `distraction_timeout_seconds`.  The ghost last-signal
timestamp of the signal's channel is updated on every step. -/
def step (timeout : ℚ) (s : CoordState) (sig : Signal) : CoordState :=
  let s1 :=
    if hasActive s.events sig.channel then
      if sig.distracted then
        { s with events := refreshChannel s.events sig.channel sig.reason sig.snapshot }
      else
        { s with events := resolveChannel s.events sig.channel sig.timestamp }
    else
      if sig.distracted then
        match pendingOf s sig.channel with
        | none => setPending s sig.channel (some sig.timestamp)
        | some p =>
          if timeout ≤ sig.timestamp - p then
            setPending
              { s with
                events :=
                  s.events ++
                    [{ id := s.nextId
                       channel := sig.channel
                       status := CStatus.active
                       reason := sig.reason
                       snapshot := sig.snapshot
                       start_time := p
                       end_time := none }]
                nextId := s.nextId + 1 }
              sig.channel none
          else s
    else setPending s sig.channel none
  setLast s1 sig.channel sig.timestamp

/-- Modelled from the spec: Session termination (sections 3 and 4.4):
"any still-pending or still-active state is force-resolved with
`end_time = stop_time` (pending states below threshold are simply
dropped, not materialized)". -/
def stopSession (s : CoordState) (tstop : ℚ) : CoordState :=
  { s with
    events :=
      s.events.map (fun e =>
        if e.status = CStatus.active then
          { e with status := CStatus.resolved, end_time := some tstop }
        else e)
    pendingGaze := none
    pendingWindow := none }

/-- The empty coordinator state at session start. -/
def initState : CoordState :=
  { events := []
    pendingGaze := none
    pendingWindow := none
    nextId := 0
    lastGaze := none
    lastWindow := none }

/-- Delivery-order side condition of section 5: a signal's timestamp is
not older than the last signal already processed on its channel. -/
def tsOk (s : CoordState) (sig : Signal) : Prop :=
  ∀ q, lastOf s sig.channel = some q → q ≤ sig.timestamp

/-- Side condition for stopping: the stop time is not older than any
signal already processed. -/
def stopOk (s : CoordState) (tstop : ℚ) : Prop :=
  (∀ q, s.lastGaze = some q → q ≤ tstop) ∧
  (∀ q, s.lastWindow = some q → q ≤ tstop)

/-- Reachable coordinator states: the initial state, closed under
signal steps respecting per-channel delivery order and under session
termination. -/
inductive Reachable (timeout : ℚ) : CoordState → Prop where
  | init : Reachable timeout initState
  | step : ∀ s sig, Reachable timeout s → tsOk s sig →
      Reachable timeout (step timeout s sig)
  | stop : ∀ s tstop, Reachable timeout s → stopOk s tstop →
      Reachable timeout (stopSession s tstop)

/-- A distracted gaze signal at time 0, used in concrete traces. -/
def sigPend : Signal :=
  { channel := Channel.gaze
    distracted := true
    reason := "looking down"
    snapshot := "snap0"
    timestamp := 0 }

/-- A distracted gaze signal at time 2 (at the demo timeout of 2s). -/
def sigCreate : Signal :=
  { channel := Channel.gaze
    distracted := true
    reason := "looking down"
    snapshot := "snap2"
    timestamp := 2 }

/-- A non-distracted gaze signal at time 3. -/
def sigResolve : Signal :=
  { channel := Channel.gaze
    distracted := false
    reason := "back"
    snapshot := "snap3"
    timestamp := 3 }

/-- Demo state after the pending-setting signal. -/
def demo1 : CoordState := step 2 initState sigPend

/-- Demo state after the creating signal (one active gaze event). -/
def demo2 : CoordState := step 2 demo1 sigCreate

/-- Demo state after the resolving signal (one resolved gaze event). -/
def demo3 : CoordState := step 2 demo2 sigResolve

/-- The value of `demo1`, written out: an empty log with a pending gaze
mark at time 0. -/
def demoPending : CoordState :=
  { events := []
    pendingGaze := some 0
    pendingWindow := none
    nextId := 0
    lastGaze := some 0
    lastWindow := none }

/-- The value of `demo2`, written out: one active gaze event started at
the pending time 0. -/
def demoActive : CoordState :=
  { events :=
      [{ id := 0
         channel := Channel.gaze
         status := CStatus.active
         reason := "looking down"
         snapshot := "snap2"
         start_time := 0
         end_time := none }]
    pendingGaze := none
    pendingWindow := none
    nextId := 1
    lastGaze := some 2
    lastWindow := none }

/-- The single resolved event of the third demo state. -/
def demoEvtR : CEvent :=
  { id := 0
    channel := Channel.gaze
    status := CStatus.resolved
    reason := "looking down"
    snapshot := "snap2"
    start_time := 0
    end_time := some 3 }

/-- The value of `demo3`, written out: the gaze event resolved at
time 3. -/
def demoResolved : CoordState :=
  { events :=
      [{ id := 0
         channel := Channel.gaze
         status := CStatus.resolved
         reason := "looking down"
         snapshot := "snap2"
         start_time := 0
         end_time := some 3 }]
    pendingGaze := none
    pendingWindow := none
    nextId := 1
    lastGaze := some 3
    lastWindow := none }

/-- A distracted gaze signal at time 1 (within the demo timeout). -/
def wSigShort : Signal :=
  { channel := Channel.gaze
    distracted := true
    reason := "looking down"
    snapshot := "snap1"
    timestamp := 1 }

/-- A non-distracted gaze signal at time 3/2, ending a short glance. -/
def wSigBack : Signal :=
  { channel := Channel.gaze
    distracted := false
    reason := "back"
    snapshot := "snapb"
    timestamp := 3/2 }

@[simp] lemma events_setPending (s : CoordState) (c : Channel) (v : Option ℚ) :
    (setPending s c v).events = s.events := by
  cases c <;> rfl

@[simp] lemma events_setLast (s : CoordState) (c : Channel) (v : ℚ) :
    (setLast s c v).events = s.events := by
  cases c <;> rfl

lemma pendingOf_setPending (s : CoordState) (c : Channel) (v : Option ℚ)
    (d : Channel) :
    pendingOf (setPending s c v) d = if d = c then v else pendingOf s d := by
  cases c <;> cases d <;> simp [setPending, pendingOf]

@[simp] lemma pendingOf_setLast (s : CoordState) (c : Channel) (v : ℚ)
    (d : Channel) : pendingOf (setLast s c v) d = pendingOf s d := by
  cases c <;> cases d <;> simp [setLast, pendingOf]

lemma lastOf_setLast (s : CoordState) (c : Channel) (v : ℚ) (d : Channel) :
    lastOf (setLast s c v) d = if d = c then some v else lastOf s d := by
  cases c <;> cases d <;> simp [setLast, lastOf]

@[simp] lemma lastOf_setPending (s : CoordState) (c : Channel) (v : Option ℚ)
    (d : Channel) : lastOf (setPending s c v) d = lastOf s d := by
  cases c <;> cases d <;> simp [setPending, lastOf]

@[simp] lemma pendingOf_withEvents (s : CoordState) (E : List CEvent)
    (d : Channel) : pendingOf { s with events := E } d = pendingOf s d := by
  cases d <;> rfl

@[simp] lemma lastOf_withEvents (s : CoordState) (E : List CEvent)
    (d : Channel) : lastOf { s with events := E } d = lastOf s d := by
  cases d <;> rfl

@[simp] lemma pendingOf_withEventsId (s : CoordState) (E : List CEvent)
    (n : Nat) (d : Channel) :
    pendingOf { s with events := E, nextId := n } d = pendingOf s d := by
  cases d <;> rfl

@[simp] lemma lastOf_withEventsId (s : CoordState) (E : List CEvent)
    (n : Nat) (d : Channel) :
    lastOf { s with events := E, nextId := n } d = lastOf s d := by
  cases d <;> rfl

lemma setLast_setPending_comm (s : CoordState) (c d : Channel) (v : Option ℚ)
    (ts : ℚ) :
    setLast (setPending s c v) d ts = setPending (setLast s d ts) c v := by
  cases c <;> cases d <;> rfl

/-- The invariant of the Distraction Coordinator the claims are about:
at most one active event per channel; `end_time` set iff resolved;
resolved events end no earlier than they start; and the bookkeeping
clauses tying active starts and pending marks to the ghost last-signal
timestamps. -/
structure Inv (s : CoordState) : Prop where
  uniqueActive : ∀ c, ((s.events.filter (fun e => isActiveOn e c)).length ≤ 1)
  activeLast : ∀ e ∈ s.events, e.status = CStatus.active →
      ∃ q, lastOf s e.channel = some q ∧ e.start_time ≤ q
  endIffResolved : ∀ e ∈ s.events,
      (e.end_time.isSome = true ↔ e.status = CStatus.resolved)
  endGeStart : ∀ e ∈ s.events, ∀ t, e.end_time = some t → e.start_time ≤ t
  pendingLast : ∀ c p, pendingOf s c = some p →
      ∃ q, lastOf s c = some q ∧ p ≤ q

lemma isActiveOn_true_iff (e : CEvent) (c : Channel) :
    isActiveOn e c = true ↔ e.channel = c ∧ e.status = CStatus.active := by
  simp [isActiveOn]

lemma length_filter_map_eq (g : CEvent → CEvent) (p : CEvent → Bool)
    (hg : ∀ e, p (g e) = p e) (evs : List CEvent) :
    ((evs.map g).filter p).length = (evs.filter p).length := by
  induction evs with
  | nil => rfl
  | cons e tl ih =>
    cases hpe : p e <;>
      simp [List.filter_cons, hg e, hpe, ih]

lemma filter_eq_nil_of_hasActive_false (evs : List CEvent) (c : Channel)
    (h : hasActive evs c = false) :
    evs.filter (fun e => isActiveOn e c) = [] := by
  rw [List.filter_eq_nil_iff]
  intro e he
  have := (List.any_eq_false).mp h e he
  simpa using this

lemma inv_raise_last (s : CoordState) (c : Channel) (ts : ℚ) (hs : Inv s)
    (h : ∀ q, lastOf s c = some q → q ≤ ts) : Inv (setLast s c ts) := by
  refine ⟨?_, ?_, ?_, ?_, ?_⟩
  · intro d
    simpa using hs.uniqueActive d
  · intro e he hact
    rw [events_setLast] at he
    obtain ⟨q, hq, hle⟩ := hs.activeLast e he hact
    rw [lastOf_setLast]
    by_cases hec : e.channel = c
    · subst hec
      exact ⟨ts, by simp, le_trans hle (h q hq)⟩
    · simp only [if_neg hec]
      exact ⟨q, hq, hle⟩
  · intro e he
    rw [events_setLast] at he
    exact hs.endIffResolved e he
  · intro e he
    rw [events_setLast] at he
    exact hs.endGeStart e he
  · intro d p hp
    rw [pendingOf_setLast] at hp
    obtain ⟨q, hq, hle⟩ := hs.pendingLast d p hp
    rw [lastOf_setLast]
    by_cases hdc : d = c
    · subst hdc
      exact ⟨ts, by simp, le_trans hle (h q hq)⟩
    · simp only [if_neg hdc]
      exact ⟨q, hq, hle⟩

lemma inv_clearPending (s : CoordState) (c : Channel) (hs : Inv s) :
    Inv (setPending s c none) := by
  refine ⟨?_, ?_, ?_, ?_, ?_⟩
  · intro d
    simpa using hs.uniqueActive d
  · intro e he hact
    rw [events_setPending] at he
    simpa using hs.activeLast e he hact
  · intro e he
    rw [events_setPending] at he
    exact hs.endIffResolved e he
  · intro e he
    rw [events_setPending] at he
    exact hs.endGeStart e he
  · intro d p hp
    rw [pendingOf_setPending] at hp
    by_cases hdc : d = c
    · simp [hdc] at hp
    · rw [if_neg hdc] at hp
      simpa using hs.pendingLast d p hp

lemma inv_setPendingSome (s : CoordState) (c : Channel) (p : ℚ) (hs : Inv s)
    (h : ∃ q, lastOf s c = some q ∧ p ≤ q) :
    Inv (setPending s c (some p)) := by
  refine ⟨?_, ?_, ?_, ?_, ?_⟩
  · intro d
    simpa using hs.uniqueActive d
  · intro e he hact
    rw [events_setPending] at he
    simpa using hs.activeLast e he hact
  · intro e he
    rw [events_setPending] at he
    exact hs.endIffResolved e he
  · intro e he
    rw [events_setPending] at he
    exact hs.endGeStart e he
  · intro d p2 hp
    rw [pendingOf_setPending] at hp
    by_cases hdc : d = c
    · subst hdc
      rw [if_pos rfl] at hp
      obtain ⟨q, hq, hle⟩ := h
      exact ⟨q, by simpa using hq, by simpa [← Option.some_inj.mp hp] using hle⟩
    · rw [if_neg hdc] at hp
      simpa using hs.pendingLast d p2 hp

lemma inv_map_preserve (s : CoordState) (g : CEvent → CEvent)
    (hch : ∀ e, (g e).channel = e.channel)
    (hst : ∀ e, (g e).status = e.status)
    (hstart : ∀ e, (g e).start_time = e.start_time)
    (hend : ∀ e, (g e).end_time = e.end_time)
    (hs : Inv s) : Inv { s with events := s.events.map g } := by
  have hp : ∀ e c, isActiveOn (g e) c = isActiveOn e c := by
    intro e c
    simp [isActiveOn, hch e, hst e]
  refine ⟨?_, ?_, ?_, ?_, ?_⟩
  · intro d
    have := length_filter_map_eq g (fun e => isActiveOn e d) (fun e => hp e d)
      s.events
    simpa [this] using hs.uniqueActive d
  · intro e2 he2 hact
    simp only [List.mem_map] at he2
    obtain ⟨e, he, rfl⟩ := he2
    have hact0 : e.status = CStatus.active := by rw [← hst e]; exact hact
    obtain ⟨q, hq, hle⟩ := hs.activeLast e he hact0
    refine ⟨q, ?_, by simpa [hstart e] using hle⟩
    rw [lastOf_withEvents, hch e]
    exact hq
  · intro e2 he2
    simp only [List.mem_map] at he2
    obtain ⟨e, he, rfl⟩ := he2
    rw [hend e, hst e]
    exact hs.endIffResolved e he
  · intro e2 he2 t ht
    simp only [List.mem_map] at he2
    obtain ⟨e, he, rfl⟩ := he2
    rw [hend e] at ht
    rw [hstart e]
    exact hs.endGeStart e he t ht
  · intro d p hp2
    rw [pendingOf_withEvents] at hp2
    simpa using hs.pendingLast d p hp2

lemma inv_refresh (s : CoordState) (c : Channel) (r sn : String) (ts : ℚ)
    (hs : Inv s) (hlast : ∀ q, lastOf s c = some q → q ≤ ts) :
    Inv (setLast { s with events := refreshChannel s.events c r sn } c ts) := by
  apply inv_raise_last
  · unfold refreshChannel
    apply inv_map_preserve s _ ?_ ?_ ?_ ?_ hs <;>
      (intro e; by_cases h : isActiveOn e c = true <;> simp [h])
  · intro q hq
    rw [lastOf_withEvents] at hq
    exact hlast q hq

lemma isActiveOn_resolveMap_self (e : CEvent) (c : Channel) (ts : ℚ) :
    isActiveOn
      (if isActiveOn e c then
        { e with status := CStatus.resolved, end_time := some ts }
      else e) c = false := by
  cases h : isActiveOn e c
  · simp [h]
  · simp [h, isActiveOn]

lemma isActiveOn_resolveMap_ne (e : CEvent) (c d : Channel) (ts : ℚ)
    (hdc : d ≠ c) :
    isActiveOn
      (if isActiveOn e c then
        { e with status := CStatus.resolved, end_time := some ts }
      else e) d = isActiveOn e d := by
  cases h : isActiveOn e c
  · simp [h]
  · obtain ⟨hec, hst2⟩ : e.channel = c ∧ e.status = CStatus.active := by
      simpa [isActiveOn] using h
    simp [h, isActiveOn, hec, hst2, Ne.symm hdc]

lemma inv_resolve (s : CoordState) (c : Channel) (ts : ℚ) (hs : Inv s)
    (hlast : ∀ q, lastOf s c = some q → q ≤ ts) :
    Inv (setLast { s with events := resolveChannel s.events c ts } c ts) := by
  unfold resolveChannel
  refine ⟨?_, ?_, ?_, ?_, ?_⟩
  · intro d
    simp only [events_setLast]
    by_cases hdc : d = c
    · subst hdc
      have hnil : (s.events.map (fun e =>
          if isActiveOn e d then
            { e with status := CStatus.resolved, end_time := some ts }
          else e)).filter (fun e => isActiveOn e d) = [] := by
        rw [List.filter_eq_nil_iff]
        intro e2 he2
        simp only [List.mem_map] at he2
        obtain ⟨e, _, rfl⟩ := he2
        simp [isActiveOn_resolveMap_self]
      rw [hnil]
      simp
    · rw [length_filter_map_eq _ (fun e => isActiveOn e d)
        (fun e => isActiveOn_resolveMap_ne e c d ts hdc) s.events]
      exact hs.uniqueActive d
  · intro e2 he2 hact
    simp only [events_setLast, List.mem_map] at he2
    obtain ⟨e, he, rfl⟩ := he2
    cases h : isActiveOn e c
    · simp only [h, Bool.false_eq_true, if_false] at hact ⊢
      have hec : e.channel ≠ c := by
        intro hec
        have := (isActiveOn_true_iff e c).mpr ⟨hec, hact⟩
        rw [h] at this
        exact Bool.false_ne_true this
      obtain ⟨q, hq, hle⟩ := hs.activeLast e he hact
      rw [lastOf_setLast, lastOf_withEvents, if_neg hec]
      exact ⟨q, hq, hle⟩
    · exfalso
      simp [h] at hact
  · intro e2 he2
    simp only [events_setLast, List.mem_map] at he2
    obtain ⟨e, he, rfl⟩ := he2
    cases h : isActiveOn e c
    · simp only [h, Bool.false_eq_true, if_false]
      exact hs.endIffResolved e he
    · simp [h]
  · intro e2 he2 t ht
    simp only [events_setLast, List.mem_map] at he2
    obtain ⟨e, he, rfl⟩ := he2
    cases h : isActiveOn e c
    · simp only [h, Bool.false_eq_true, if_false] at ht ⊢
      exact hs.endGeStart e he t ht
    · obtain ⟨hec, hst2⟩ : e.channel = c ∧ e.status = CStatus.active := by
        simpa [isActiveOn] using h
      obtain ⟨q, hq, hle⟩ := hs.activeLast e he hst2
      rw [hec] at hq
      simp only [h, if_true] at ht ⊢
      have hts2 : ts = t := by simpa using ht
      rw [← hts2]
      exact le_trans hle (hlast q hq)
  · intro d p hp
    rw [pendingOf_setLast, pendingOf_withEvents] at hp
    obtain ⟨q, hq, hle⟩ := hs.pendingLast d p hp
    rw [lastOf_setLast, lastOf_withEvents]
    by_cases hdc : d = c
    · subst hdc
      exact ⟨ts, by simp, le_trans hle (hlast q hq)⟩
    · rw [if_neg hdc]
      exact ⟨q, hq, hle⟩

lemma inv_create (s : CoordState) (c : Channel) (p ts : ℚ) (r sn : String)
    (hs : Inv s) (hAct : hasActive s.events c = false)
    (hp : pendingOf s c = some p)
    (hlast : ∀ q, lastOf s c = some q → q ≤ ts) :
    Inv (setLast
      (setPending
        { s with
          events :=
            s.events ++
              [{ id := s.nextId
                 channel := c
                 status := CStatus.active
                 reason := r
                 snapshot := sn
                 start_time := p
                 end_time := none }]
          nextId := s.nextId + 1 }
        c none)
      c ts) := by
  set newEv : CEvent :=
    { id := s.nextId
      channel := c
      status := CStatus.active
      reason := r
      snapshot := sn
      start_time := p
      end_time := none } with hnew
  refine ⟨?_, ?_, ?_, ?_, ?_⟩
  · intro d
    simp only [events_setLast, events_setPending]
    rw [List.filter_append]
    by_cases hdc : d = c
    · subst hdc
      rw [filter_eq_nil_of_hasActive_false s.events d hAct]
      simp [isActiveOn]
    · have : isActiveOn newEv d = false := by
        simp [isActiveOn, hnew, Ne.symm hdc]
      simp only [List.filter_cons, this, List.filter_nil]
      simpa using hs.uniqueActive d
  · intro e2 he2 hact
    simp only [events_setLast, events_setPending, List.mem_append,
      List.mem_singleton] at he2
    rw [lastOf_setLast, lastOf_setPending, lastOf_withEventsId]
    rcases he2 with he | rfl
    · obtain ⟨q, hq, hle⟩ := hs.activeLast e2 he hact
      by_cases hec : e2.channel = c
      · rw [hec] at hq ⊢
        exact ⟨ts, by simp, le_trans hle (hlast q hq)⟩
      · rw [if_neg hec]
        exact ⟨q, hq, hle⟩
    · obtain ⟨q, hq, hle⟩ := hs.pendingLast c p hp
      refine ⟨ts, by simp [hnew], ?_⟩
      simpa [hnew] using le_trans hle (hlast q hq)
  · intro e2 he2
    simp only [events_setLast, events_setPending, List.mem_append,
      List.mem_singleton] at he2
    rcases he2 with he | rfl
    · exact hs.endIffResolved e2 he
    · simp [hnew]
  · intro e2 he2 t ht
    simp only [events_setLast, events_setPending, List.mem_append,
      List.mem_singleton] at he2
    rcases he2 with he | rfl
    · exact hs.endGeStart e2 he t ht
    · simp [hnew] at ht
  · intro d p2 hp2
    rw [pendingOf_setLast, pendingOf_setPending] at hp2
    by_cases hdc : d = c
    · rw [if_pos hdc] at hp2
      exact absurd hp2 (by simp)
    · rw [if_neg hdc, pendingOf_withEventsId] at hp2
      obtain ⟨q, hq, hle⟩ := hs.pendingLast d p2 hp2
      rw [lastOf_setLast, lastOf_setPending, lastOf_withEventsId, if_neg hdc]
      exact ⟨q, hq, hle⟩

/-- The coordinator invariant holds in the initial state. -/
theorem inv_init : Inv initState := by
  refine ⟨?_, ?_, ?_, ?_, ?_⟩ <;>
    simp [initState, pendingOf, lastOf]
  intro c
  cases c <;> simp

/-- The coordinator invariant is preserved by every signal step that
respects per-channel delivery order. -/
theorem inv_step (timeout : ℚ) (s : CoordState) (sig : Signal)
    (hs : Inv s) (hts : tsOk s sig) : Inv (step timeout s sig) := by
  unfold step
  by_cases hAct : hasActive s.events sig.channel = true
  · rw [if_pos hAct]
    by_cases hdis : sig.distracted = true
    · rw [if_pos hdis]
      exact inv_refresh s sig.channel sig.reason sig.snapshot sig.timestamp hs hts
    · rw [if_neg hdis]
      exact inv_resolve s sig.channel sig.timestamp hs hts
  · rw [if_neg hAct]
    by_cases hdis : sig.distracted = true
    · rw [if_pos hdis]
      rcases hp : pendingOf s sig.channel with _ | p
      · show Inv (setLast (setPending s sig.channel (some sig.timestamp))
            sig.channel sig.timestamp)
        rw [setLast_setPending_comm]
        refine inv_setPendingSome _ _ _ (inv_raise_last s _ _ hs hts) ?_
        exact ⟨sig.timestamp, by simp [lastOf_setLast], le_refl _⟩
      · show Inv (setLast
          (if timeout ≤ sig.timestamp - p then
            setPending
              { s with
                events :=
                  s.events ++
                    [{ id := s.nextId
                       channel := sig.channel
                       status := CStatus.active
                       reason := sig.reason
                       snapshot := sig.snapshot
                       start_time := p
                       end_time := none }]
                nextId := s.nextId + 1 }
              sig.channel none
          else s)
          sig.channel sig.timestamp)
        by_cases htm : timeout ≤ sig.timestamp - p
        · rw [if_pos htm]
          exact inv_create s sig.channel p sig.timestamp sig.reason sig.snapshot
            hs (Bool.not_eq_true _ ▸ hAct) hp hts
        · rw [if_neg htm]
          exact inv_raise_last s sig.channel sig.timestamp hs hts
    · rw [if_neg hdis]
      rw [setLast_setPending_comm]
      exact inv_clearPending _ _ (inv_raise_last s _ _ hs hts)

/-- The coordinator invariant is preserved by session termination. -/
theorem inv_stop (s : CoordState) (tstop : ℚ) (hs : Inv s)
    (hst : stopOk s tstop) : Inv (stopSession s tstop) := by
  have hpend : ∀ d, pendingOf (stopSession s tstop) d = none := by
    intro d; cases d <;> rfl
  have hlaststop : ∀ d, lastOf (stopSession s tstop) d = lastOf s d := by
    intro d; cases d <;> rfl
  have hev : (stopSession s tstop).events =
      s.events.map (fun e =>
        if e.status = CStatus.active then
          { e with status := CStatus.resolved, end_time := some tstop }
        else e) := rfl
  refine ⟨?_, ?_, ?_, ?_, ?_⟩
  · intro d
    rw [hev]
    have : (s.events.map (fun e =>
        if e.status = CStatus.active then
          { e with status := CStatus.resolved, end_time := some tstop }
        else e)).filter (fun e => isActiveOn e d) = [] := by
      rw [List.filter_eq_nil_iff]
      intro e2 he2
      simp only [List.mem_map] at he2
      obtain ⟨e, _, rfl⟩ := he2
      by_cases h : e.status = CStatus.active <;> simp [h, isActiveOn]
    simp [this]
  · intro e2 he2 hact
    exfalso
    rw [hev] at he2
    simp only [List.mem_map] at he2
    obtain ⟨e, _, rfl⟩ := he2
    by_cases h : e.status = CStatus.active <;> simp [h] at hact
  · intro e2 he2
    rw [hev] at he2
    simp only [List.mem_map] at he2
    obtain ⟨e, he, rfl⟩ := he2
    by_cases h : e.status = CStatus.active
    · simp [h]
    · simpa [h] using hs.endIffResolved e he
  · intro e2 he2 t ht
    rw [hev] at he2
    simp only [List.mem_map] at he2
    obtain ⟨e, he, rfl⟩ := he2
    by_cases h : e.status = CStatus.active
    · rw [if_pos h] at ht ⊢
      have hts2 : tstop = t := by simpa using ht
      obtain ⟨q, hq, hle⟩ := hs.activeLast e he h
      have hqt : q ≤ tstop := by
        cases hc : e.channel
        · rw [hc] at hq
          exact hst.1 q hq
        · rw [hc] at hq
          exact hst.2 q hq
      simpa [← hts2] using le_trans hle hqt
    · rw [if_neg h] at ht ⊢
      exact hs.endGeStart e he t ht
  · intro d p hp
    rw [hpend d] at hp
    exact absurd hp (by simp)

/-- Every reachable coordinator state satisfies the invariant. -/
theorem reachable_inv (timeout : ℚ) (s : CoordState)
    (h : Reachable timeout s) : Inv s := by
  induction h with
  | init => exact inv_init
  | step s sig _ hts ih => exact inv_step timeout s sig ih hts
  | stop s tstop _ hst ih => exact inv_stop s tstop ih hst

lemma step_clear_of_not_distracted (timeout : ℚ) (s : CoordState) (sig : Signal)
    (hAct : hasActive s.events sig.channel = false)
    (hdis : sig.distracted = false) :
    step timeout s sig =
      setLast (setPending s sig.channel none) sig.channel sig.timestamp := by
  unfold step
  rw [if_neg (by simp [hAct]), if_neg (by simp [hdis])]

lemma step_pend_of_none (timeout : ℚ) (s : CoordState) (sig : Signal)
    (hAct : hasActive s.events sig.channel = false)
    (hdis : sig.distracted = true)
    (hp : pendingOf s sig.channel = none) :
    step timeout s sig =
      setLast (setPending s sig.channel (some sig.timestamp))
        sig.channel sig.timestamp := by
  unfold step
  rw [if_neg (by simp [hAct]), if_pos hdis, hp]

lemma step_keep_of_pending_noTimeout (timeout : ℚ) (s : CoordState)
    (sig : Signal) (p : ℚ)
    (hAct : hasActive s.events sig.channel = false)
    (hdis : sig.distracted = true)
    (hp : pendingOf s sig.channel = some p)
    (htm : ¬ timeout ≤ sig.timestamp - p) :
    step timeout s sig = setLast s sig.channel sig.timestamp := by
  unfold step
  rw [if_neg (by simp [hAct]), if_pos hdis, hp]
  show setLast
      (if timeout ≤ sig.timestamp - p then
        setPending
          { s with
            events :=
              s.events ++
                [{ id := s.nextId
                   channel := sig.channel
                   status := CStatus.active
                   reason := sig.reason
                   snapshot := sig.snapshot
                   start_time := p
                   end_time := none }]
            nextId := s.nextId + 1 }
          sig.channel none
      else s)
      sig.channel sig.timestamp = setLast s sig.channel sig.timestamp
  rw [if_neg htm]

/-- Processing a block of distracted channel-`c` signals whose
timestamps all lie within a window strictly shorter than the timeout,
starting with no active event and no pending mark older than the window
start, leaves the event list unchanged. -/
lemma block_no_event (timeout t0 : ℚ) (c : Channel) :
    ∀ (block : List Signal) (s : CoordState),
      (∀ sig ∈ block, sig.channel = c ∧ sig.distracted = true ∧
          t0 ≤ sig.timestamp ∧ sig.timestamp < t0 + timeout) →
      hasActive s.events c = false →
      (pendingOf s c = none ∨ ∃ p, pendingOf s c = some p ∧ t0 ≤ p) →
      (block.foldl (step timeout) s).events = s.events ∧
        hasActive (block.foldl (step timeout) s).events c = false ∧
        (pendingOf (block.foldl (step timeout) s) c = none ∨
          ∃ p, pendingOf (block.foldl (step timeout) s) c = some p ∧ t0 ≤ p) := by
  intro block
  induction block with
  | nil =>
    intro s _ hAct hpend
    exact ⟨rfl, hAct, hpend⟩
  | cons sig tl ih =>
    intro s hblock hAct hpend
    obtain ⟨hch, hdis, ht0, hlt⟩ := hblock sig (by simp)
    have hAct2 : hasActive s.events sig.channel = false := by
      rw [hch]; exact hAct
    rcases hpend with hp | ⟨p, hp, ht0p⟩
    · have hstep := step_pend_of_none timeout s sig hAct2 hdis
        (by rw [hch]; exact hp)
      rw [List.foldl_cons, hstep]
      have hAct3 : hasActive
          (setLast (setPending s sig.channel (some sig.timestamp))
            sig.channel sig.timestamp).events c = false := by
        simpa using hAct
      obtain ⟨h1, h2, h3⟩ := ih _ (fun g hg => hblock g (by simp [hg])) hAct3
        (Or.inr ⟨sig.timestamp, by
          rw [pendingOf_setLast, pendingOf_setPending, if_pos hch.symm], ht0⟩)
      exact ⟨by simpa using h1, h2, h3⟩
    · have hstep := step_keep_of_pending_noTimeout timeout s sig p hAct2 hdis
        (by rw [hch]; exact hp)
        (by intro hle; linarith)
      rw [List.foldl_cons, hstep]
      have hAct3 : hasActive (setLast s sig.channel sig.timestamp).events c
          = false := by simpa using hAct
      obtain ⟨h1, h2, h3⟩ := ih _ (fun g hg => hblock g (by simp [hg])) hAct3
        (Or.inr ⟨p, by rw [pendingOf_setLast]; exact hp, ht0p⟩)
      exact ⟨by simpa using h1, h2, h3⟩

lemma step_create_eq (timeout : ℚ) (s : CoordState) (sig : Signal) (p : ℚ)
    (hAct : hasActive s.events sig.channel = false)
    (hdis : sig.distracted = true)
    (hp : pendingOf s sig.channel = some p)
    (htm : timeout ≤ sig.timestamp - p) :
    step timeout s sig =
      setLast
        (setPending
          { s with
            events :=
              s.events ++
                [{ id := s.nextId
                   channel := sig.channel
                   status := CStatus.active
                   reason := sig.reason
                   snapshot := sig.snapshot
                   start_time := p
                   end_time := none }]
            nextId := s.nextId + 1 }
          sig.channel none)
        sig.channel sig.timestamp := by
  unfold step
  rw [if_neg (by simp [hAct]), if_pos hdis, hp]
  show setLast
      (if timeout ≤ sig.timestamp - p then
        setPending
          { s with
            events :=
              s.events ++
                [{ id := s.nextId
                   channel := sig.channel
                   status := CStatus.active
                   reason := sig.reason
                   snapshot := sig.snapshot
                   start_time := p
                   end_time := none }]
            nextId := s.nextId + 1 }
          sig.channel none
      else s)
      sig.channel sig.timestamp = _
  rw [if_pos htm]

lemma step_resolve_eq (timeout : ℚ) (s : CoordState) (sig : Signal)
    (hAct : hasActive s.events sig.channel = true)
    (hdis : sig.distracted = false) :
    step timeout s sig =
      setLast { s with events := resolveChannel s.events sig.channel sig.timestamp }
        sig.channel sig.timestamp := by
  unfold step
  rw [if_pos hAct, if_neg (by simp [hdis])]

/-- Evaluation of the first demo step. -/
lemma demo1_eval : demo1 = demoPending := by
  unfold demo1
  rw [step_pend_of_none 2 initState sigPend (by decide) (by decide) rfl]
  rfl

/-- Evaluation of the second demo step: the debounce fires at time 2 and
creates the event with `start_time` equal to the pending time 0. -/
lemma demo2_eval : demo2 = demoActive := by
  unfold demo2
  rw [demo1_eval]
  rw [step_create_eq 2 demoPending sigCreate 0 (by decide) (by decide) rfl
    (by norm_num [sigCreate])]
  rfl

/-- Evaluation of the third demo step: the active event is resolved at
time 3. -/
lemma demo3_eval : demo3 = demoResolved := by
  unfold demo3
  rw [demo2_eval]
  rw [step_resolve_eq 2 demoActive sigResolve (by decide) (by decide)]
  rfl

/-- The demo state with one active gaze event is reachable. -/
theorem reachable_demoActive : Reachable 2 demoActive := by
  rw [← demo2_eval]
  refine Reachable.step demo1 sigCreate
    (Reachable.step initState sigPend Reachable.init ?_) ?_
  · intro q hq
    exact Option.noConfusion
      ((show lastOf initState sigPend.channel = none from rfl) ▸ hq)
  · intro q hq
    rw [demo1_eval] at hq
    injection (show some (0:ℚ) = some q from hq) with h
    rw [← h]
    norm_num [sigCreate]

/-- The demo state with one resolved gaze event is reachable. -/
theorem reachable_demoResolved : Reachable 2 demoResolved := by
  rw [← demo3_eval]
  refine Reachable.step demo2 sigResolve ?_ ?_
  · rw [demo2_eval]
    exact reachable_demoActive
  · intro q hq
    rw [demo2_eval] at hq
    injection (show some (2:ℚ) = some q from hq) with h
    rw [← h]
    norm_num [sigResolve]

/-- C1: a distraction whose predicate holds continuously for strictly
less than `distraction_timeout_seconds` produces zero `DistractionEvent`
records: processing any block of distracted channel-`c` signals whose
timestamps stay strictly within `timeout` of the window start `t0`,
followed by a non-distracted signal, leaves the coordinator event list
unchanged and discards the pending state. -/
theorem short_distraction_produces_no_event
    (timeout t0 : ℚ) (c : Channel) (s : CoordState)
    (block : List Signal) (endSig : Signal)
    (hAct : hasActive s.events c = false)
    (hpend : pendingOf s c = none)
    (hblock : ∀ sig ∈ block, sig.channel = c ∧ sig.distracted = true ∧
        t0 ≤ sig.timestamp ∧ sig.timestamp < t0 + timeout)
    (hendc : endSig.channel = c) (hendd : endSig.distracted = false) :
    ((block ++ [endSig]).foldl (step timeout) s).events = s.events ∧
      pendingOf ((block ++ [endSig]).foldl (step timeout) s) c = none := by
  rw [List.foldl_append]
  obtain ⟨h1, h2, _⟩ :=
    block_no_event timeout t0 c block s hblock hAct (Or.inl hpend)
  have hA2 : hasActive (block.foldl (step timeout) s).events endSig.channel
      = false := by rw [hendc]; exact h2
  have hstep := step_clear_of_not_distracted timeout
    (block.foldl (step timeout) s) endSig hA2 hendd
  rw [List.foldl_cons, List.foldl_nil, hstep]
  constructor
  · rw [events_setLast, events_setPending]
    exact h1
  · rw [pendingOf_setLast, pendingOf_setPending, if_pos hendc.symm]

/-- C1 witness: two distracted gaze signals at times 0 and 1 followed by
a non-distracted one at 3/2, against a 2-second timeout, leave the
initial event list empty with no pending mark. -/
theorem short_distraction_produces_no_event_witness :
    hasActive initState.events Channel.gaze = false ∧
    pendingOf initState Channel.gaze = none ∧
    (∀ sig ∈ [sigPend, wSigShort], sig.channel = Channel.gaze ∧
        sig.distracted = true ∧ (0:ℚ) ≤ sig.timestamp ∧
        sig.timestamp < 0 + 2) ∧
    wSigBack.channel = Channel.gaze ∧ wSigBack.distracted = false ∧
    (([sigPend, wSigShort] ++ [wSigBack]).foldl (step 2) initState).events
      = initState.events ∧
    pendingOf (([sigPend, wSigShort] ++ [wSigBack]).foldl (step 2) initState)
      Channel.gaze = none := by
  refine ⟨by decide, by decide,
    by simp [sigPend, wSigShort, zero_lt_two, one_lt_two, zero_le_one],
    by decide, by decide, ?_, ?_⟩
  · exact (short_distraction_produces_no_event 2 0 Channel.gaze initState
      [sigPend, wSigShort] wSigBack (by decide) (by decide)
      (by simp [sigPend, wSigShort, zero_lt_two, one_lt_two, zero_le_one])
      (by decide) (by decide)).1
  · exact (short_distraction_produces_no_event 2 0 Channel.gaze initState
      [sigPend, wSigShort] wSigBack (by decide) (by decide)
      (by simp [sigPend, wSigShort, zero_lt_two, one_lt_two, zero_le_one])
      (by decide) (by decide)).2

/-- C2: in every reachable coordinator state, at most one event per
channel is `active` — in particular at most one gaze and at most one
window event are active at any time. -/
theorem unique_active_per_channel (timeout : ℚ) (s : CoordState)
    (h : Reachable timeout s) (c : Channel) :
    (s.events.filter (fun e => isActiveOn e c)).length ≤ 1 :=
  (reachable_inv timeout s h).uniqueActive c

/-- C2 witness: in the reachable demo state holding one active gaze
event, the active-per-channel count is at most one. -/
theorem unique_active_per_channel_witness :
    (demoActive.events.filter (fun e => isActiveOn e Channel.gaze)).length ≤ 1 :=
  unique_active_per_channel 2 demoActive reachable_demoActive Channel.gaze

/-- C3: in every reachable coordinator state, an event has a non-null
`end_time` exactly when its status is `resolved`, and any set `end_time`
is at least `start_time`. -/
theorem end_time_iff_resolved_and_ordered (timeout : ℚ) (s : CoordState)
    (h : Reachable timeout s) :
    ∀ e ∈ s.events,
      (e.end_time.isSome = true ↔ e.status = CStatus.resolved) ∧
      ∀ t, e.end_time = some t → e.start_time ≤ t :=
  fun e he =>
    ⟨(reachable_inv timeout s h).endIffResolved e he,
     fun t ht => (reachable_inv timeout s h).endGeStart e he t ht⟩

/-- C3 witness: the property instantiated at the resolved event of the
reachable demo state: its end time is set, its status is resolved, and
its start time is at most its end time 3. -/
theorem end_time_iff_resolved_and_ordered_witness :
    demoEvtR.end_time.isSome = true ∧
    demoEvtR.status = CStatus.resolved ∧ demoEvtR.start_time ≤ 3 :=
  ⟨by decide,
   (end_time_iff_resolved_and_ordered 2 demoResolved reachable_demoResolved
      demoEvtR (by decide)).1.mp (by decide),
   (end_time_iff_resolved_and_ordered 2 demoResolved reachable_demoResolved
      demoEvtR (by decide)).2 3 (by decide)⟩

/-- C5: session termination finalizes every still-active event: after
`stopSession`, the event at every position that was active is `resolved`
with `end_time` equal to the stop time, the log length is unchanged and
identities are preserved. -/
theorem stopSession_finalizes_actives (s : CoordState) (tstop : ℚ) :
    (stopSession s tstop).events.length = s.events.length ∧
    ∀ i (hi : i < s.events.length)
        (hi2 : i < (stopSession s tstop).events.length),
      (s.events.get ⟨i, hi⟩).status = CStatus.active →
      ((stopSession s tstop).events.get ⟨i, hi2⟩).status = CStatus.resolved ∧
      ((stopSession s tstop).events.get ⟨i, hi2⟩).end_time = some tstop ∧
      ((stopSession s tstop).events.get ⟨i, hi2⟩).id =
        (s.events.get ⟨i, hi⟩).id := by
  constructor
  · simp [stopSession]
  · intro i hi hi2 hact
    have hg : (stopSession s tstop).events.get ⟨i, hi2⟩ =
        (if (s.events.get ⟨i, hi⟩).status = CStatus.active then
          { s.events.get ⟨i, hi⟩ with
            status := CStatus.resolved, end_time := some tstop }
        else s.events.get ⟨i, hi⟩) := by
      rw [List.get_eq_getElem, List.get_eq_getElem]
      simp [stopSession]
    rw [hg, if_pos hact]
    exact ⟨rfl, rfl, rfl⟩

/-- C5 witness: stopping at time 5 the demo state holding one active
gaze event yields a resolved event with `end_time = 5`. -/
theorem stopSession_finalizes_actives_witness :
    (demoActive.events.get ⟨0, by decide⟩).status = CStatus.active ∧
    ((stopSession demoActive 5).events.get ⟨0, by decide⟩).status
      = CStatus.resolved ∧
    ((stopSession demoActive 5).events.get ⟨0, by decide⟩).end_time = some 5 :=
  ⟨by decide,
   ((stopSession_finalizes_actives demoActive 5).2 0 (by decide) (by decide)
     (by decide)).1,
   ((stopSession_finalizes_actives demoActive 5).2 0 (by decide) (by decide)
     (by decide)).2.1⟩

end Coordinator

/-- C4: `startSession` keeps the frontend session active regardless of
the backend call's outcome; a failed or throwing backend call produces
exactly the same frontend state and session document as a successful
one. -/
theorem startSession_survives_backend_failure
    (st : SessionContext.FrontendSessionState) (now : Int)
    (backend : SessionContext.BackendCallResult) :
    (SessionContext.startSession st now backend).1.isSessionActive = true ∧
    SessionContext.startSession st now backend =
      SessionContext.startSession st now SessionContext.BackendCallResult.ok := by
  cases backend <;> exact ⟨rfl, rfl⟩

/-- C6: the session event-log accessor returns exactly the records of
the session (a permutation of the `sessionId` filter of the store),
ordered ascending by `start_time`, and in particular every matching
record — also a still-active one — is in the result (no status
filter). -/
theorem getSessionDistractions_spec (store : List DistractionEvent)
    (sid : String) :
    List.Perm (getSessionDistractions store sid)
      (store.filter (matchesSession sid)) ∧
    List.Sorted startLE (getSessionDistractions store sid) ∧
    ∀ e ∈ store, e.sessionId = some sid →
      e ∈ getSessionDistractions store sid := by
  refine ⟨List.perm_insertionSort _ _, List.sorted_insertionSort _ _, ?_⟩
  intro e he hsid
  unfold getSessionDistractions
  rw [List.mem_insertionSort]
  exact List.mem_filter.mpr ⟨he, by simp [matchesSession, hsid]⟩

/-- C6 witness: a still-active event of the session is returned by the
accessor on a concrete two-event store. -/
theorem getSessionDistractions_spec_witness :
    activeProbe ∈
      getSessionDistractions [activeProbe, resolvedProbe] "session_1" :=
  (getSessionDistractions_spec [activeProbe, resolvedProbe] "session_1").2.2
    activeProbe (by decide) (by decide)

/-- C7: ending a session updates only `status` and `end_time` on the
session document: every configuration field written at creation, and the
identity and start time, are unchanged. -/
theorem endSession_preserves_config
    (st : SessionContext.FrontendSessionState) (now : Int)
    (backend : SessionContext.BackendCallResult)
    (d : SessionContext.SessionDoc) :
    ((SessionContext.endSession st now backend d).2).gaze_threshold_y
        = d.gaze_threshold_y ∧
    ((SessionContext.endSession st now backend d).2).gaze_threshold_x_min
        = d.gaze_threshold_x_min ∧
    ((SessionContext.endSession st now backend d).2).gaze_threshold_x_max
        = d.gaze_threshold_x_max ∧
    ((SessionContext.endSession st now backend d).2).distraction_timeout
        = d.distraction_timeout ∧
    ((SessionContext.endSession st now backend d).2).session_id
        = d.session_id ∧
    ((SessionContext.endSession st now backend d).2).start_time
        = d.start_time := by
  cases hsid : st.sessionId <;> cases backend <;>
    simp [SessionContext.endSession, SessionContext.endSessionDocUpdate, hsid]

/-- C8 counterexample: on a list holding one still-active event the two
exported `calculateDistractionStats` implementations disagree (the
service version counts it, the analytics version does not). -/
theorem calculateDistractionStats_implementations_differ :
    DistractionService.calculateDistractionStats hourZero [activeProbe] ≠
      Analytics.calculateDistractionStats hourZero [activeProbe] := by
  intro h
  have h2 := congrArg DistractionStats.totalDistractions h
  simp [DistractionService.calculateDistractionStats,
    Analytics.calculateDistractionStats, activeProbe] at h2

/-- C8 amended: the two implementations return equal stats on every
input list in which every event has status `resolved`; they differ as
soon as an active event is present. -/
theorem calculateDistractionStats_agree_on_resolved (hourOf : Int → Nat)
    (events : List DistractionEvent)
    (h : ∀ e ∈ events, e.status = EvStatus.resolved) :
    DistractionService.calculateDistractionStats hourOf events =
      Analytics.calculateDistractionStats hourOf events := by
  have hres :
      events.filter (fun e => decide (e.status = EvStatus.resolved))
        = events := by
    rw [List.filter_eq_self]
    intro e he
    simp [h e he]
  have hgaze :
      events.filter (fun e =>
          decide (e.type = EvType.gaze_distraction ∧
            e.status = EvStatus.resolved)) =
        events.filter (fun e => decide (e.type = EvType.gaze_distraction)) := by
    apply List.filter_congr
    intro e he
    simp [h e he]
  have hwin :
      events.filter (fun e =>
          decide (e.type = EvType.window_distraction ∧
            e.status = EvStatus.resolved)) =
        events.filter (fun e => decide (e.type = EvType.window_distraction)) := by
    apply List.filter_congr
    intro e he
    simp [h e he]
  unfold DistractionService.calculateDistractionStats
    Analytics.calculateDistractionStats
  rw [hres, hgaze, hwin]

/-- C8 amended witness: on a concrete all-resolved list the two
implementations agree. -/
theorem calculateDistractionStats_agree_on_resolved_witness :
    (∀ e ∈ [resolvedProbe], e.status = EvStatus.resolved) ∧
    DistractionService.calculateDistractionStats hourZero [resolvedProbe] =
      Analytics.calculateDistractionStats hourZero [resolvedProbe] :=
  ⟨by decide,
   calculateDistractionStats_agree_on_resolved hourZero [resolvedProbe]
     (by decide)⟩

lemma clamp_int_bounds (z : ℤ) :
    ∃ n : ℤ, (max 0 (min 100 (z : ℚ)) : ℚ) = (n : ℚ) ∧ 0 ≤ n ∧ n ≤ 100 := by
  refine ⟨max 0 (min 100 z), ?_, le_max_left _ _, ?_⟩
  · push_cast
    rfl
  · exact max_le (by norm_num) (min_le_left _ _)

/-- C9: both focus-score functions return an integer between 0 and 100,
and return exactly 100 on a non-positive session duration. -/
theorem focusScore_bounds (d : ℚ) (events : List DistractionEvent) :
    (∃ n : ℤ, DistractionService.calculateFocusScore d events = (n : ℚ) ∧
      0 ≤ n ∧ n ≤ 100) ∧
    (∃ n : ℤ, Analytics.calculateSessionFocusScore d events = (n : ℚ) ∧
      0 ≤ n ∧ n ≤ 100) ∧
    (d ≤ 0 → DistractionService.calculateFocusScore d events = 100 ∧
      Analytics.calculateSessionFocusScore d events = 100) := by
  refine ⟨?_, ?_, fun hd => ?_⟩
  · unfold DistractionService.calculateFocusScore
    by_cases hd : d ≤ 0
    · rw [if_pos hd]
      exact ⟨100, by norm_num, by norm_num, by norm_num⟩
    · rw [if_neg hd]
      exact clamp_int_bounds _
  · unfold Analytics.calculateSessionFocusScore
    by_cases hd : d ≤ 0
    · rw [if_pos hd]
      exact ⟨100, by norm_num, by norm_num, by norm_num⟩
    · rw [if_neg hd]
      exact clamp_int_bounds _
  · constructor
    · unfold DistractionService.calculateFocusScore
      rw [if_pos hd]
    · unfold Analytics.calculateSessionFocusScore
      rw [if_pos hd]

/-- C9 witness: at session duration 0 both functions return 100. -/
theorem focusScore_bounds_witness :
    DistractionService.calculateFocusScore 0 [] = 100 ∧
    Analytics.calculateSessionFocusScore 0 [] = 100 :=
  (focusScore_bounds 0 []).2.2 (le_refl 0)

lemma map_hour_byHour (hourOf : Int → Nat) (events : List DistractionEvent) :
    (byHour hourOf events).map HourCount.hour = List.range 24 := by
  unfold byHour
  rw [List.map_map]
  have hcomp : (HourCount.hour ∘ fun h =>
      (⟨h, hourCount hourOf events h⟩ : HourCount)) = id := by
    funext h
    rfl
  rw [hcomp, List.map_id]

/-- C10: in both implementations, `distractionsByHour` has exactly 24
entries whose hour values are 0 through 23 in ascending order, each with
a non-negative count. -/
theorem distractionsByHour_shape (hourOf : Int → Nat)
    (events : List DistractionEvent) :
    ((DistractionService.calculateDistractionStats hourOf
        events).distractionsByHour.length = 24) ∧
    ((DistractionService.calculateDistractionStats hourOf
        events).distractionsByHour.map HourCount.hour = List.range 24) ∧
    (∀ hc ∈ (DistractionService.calculateDistractionStats hourOf
        events).distractionsByHour, 0 ≤ hc.count) ∧
    ((Analytics.calculateDistractionStats hourOf
        events).distractionsByHour.length = 24) ∧
    ((Analytics.calculateDistractionStats hourOf
        events).distractionsByHour.map HourCount.hour = List.range 24) ∧
    (∀ hc ∈ (Analytics.calculateDistractionStats hourOf
        events).distractionsByHour, 0 ≤ hc.count) := by
  refine ⟨?_, ?_, fun hc _ => Nat.zero_le _, ?_, ?_, fun hc _ => Nat.zero_le _⟩
  · simp [DistractionService.calculateDistractionStats, byHour]
  · exact map_hour_byHour hourOf events
  · simp [Analytics.calculateDistractionStats, byHour]
  · exact map_hour_byHour hourOf
      (events.filter (fun e => decide (e.status = EvStatus.resolved)))

/-- C10 witness: the shape holds on a concrete one-event input. -/
theorem distractionsByHour_shape_witness :
    (DistractionService.calculateDistractionStats hourZero
        [activeProbe]).distractionsByHour.map HourCount.hour
      = List.range 24 ∧
    (Analytics.calculateDistractionStats hourZero
        [activeProbe]).distractionsByHour.map HourCount.hour
      = List.range 24 :=
  ⟨(distractionsByHour_shape hourZero [activeProbe]).2.1,
   (distractionsByHour_shape hourZero [activeProbe]).2.2.2.2.1⟩

end LaserLock
